import Mathlib

/-!
Shallow embedding of the gohci worker's job execution and reporting engine
(`cmd/gohci-worker/job.go`, `cmd/gohci-worker/worker.go`, and the sync phase
in `job.go`), together with proofs about the embedded operations.

Conventions used throughout:
* Go byte slices are `List Nat` (each entry a byte value).
* `time.Duration` values are `Nat` nanoseconds. All durations handled by the
  rounding helpers come from `time.Since` and are therefore nonnegative, so
  `Nat` division coincides with Go's `int64` division on the reachable domain.
* External effects (running a subprocess, deleting a directory) are
  parameters: a run is a function giving, for each invocation, the text and
  success flag the real call would return.
-/

namespace Gohci

/-- `gohci.Check` (gohci.go): one command to run, with optional environment
overlay and optional subdirectory. -/
structure Check where
  cmd : List String
  env : List String
  dir : String
deriving Repr, DecidableEq

/-- `gistFile` (cmd/gohci-worker/job.go): one step result: display name,
captured content, success flag, elapsed duration (nanoseconds). -/
structure GistFile where
  name : String
  content : String
  success : Bool
  d : Nat
deriving Repr, DecidableEq

/- ### Decimal formatting: strconv.Itoa and fmt.Sprintf("%0*d", w, m) -/

/-- One decimal digit as a character, `'0'` through `'9'`. -/
def digitChar (d : Nat) : Char := Char.ofNat (48 + d)

/-- Decimal digits of `n`, most significant first, empty for `0`
(the recursive core of `strconv.Itoa`). -/
def itoaCore : Nat → List Char
  | 0 => []
  | n + 1 => itoaCore ((n + 1) / 10) ++ [digitChar ((n + 1) % 10)]
decreasing_by exact Nat.div_lt_self (Nat.succ_pos n) (by norm_num)

/-- `strconv.Itoa` for nonnegative values: decimal text of `n`. -/
def itoa (n : Nat) : List Char := if n = 0 then ['0'] else itoaCore n

/-- `fmt.Sprintf` with a `%0*d` verb of width `w`: the decimal text of the
argument, left-padded with zeros up to a minimum width of `w` (no padding when
the text is already at least `w` characters wide). -/
def sprintfPad (w : Nat) (s : List Char) : List Char :=
  List.replicate (w - s.length) '0' ++ s

/-- The name given to the result of check number `i1` (1-based) when the
configured check count renders with `nb` decimal digits:
`fmt.Sprintf("cmd%0*d", nb, i1)` in `runChecks`. -/
def checkName (nb i1 : Nat) : String :=
  "cmd" ++ String.mk (sprintfPad nb (itoa i1))

/-- The `w` base-10 digits of `n`, most significant first, with leading
zeros. For `n < 10 ^ w` this is exactly the zero-padded decimal rendering
produced by `sprintfPad w (itoa n)`; the proofs below relate the two. -/
def digitsBE : Nat → Nat → List Nat
  | 0, _ => []
  | w + 1, n => n / 10 ^ w :: digitsBE w (n % 10 ^ w)

/- ### runChecks (cmd/gohci-worker/job.go, lines 350-367) -/

/-- The outcome of one `j.run` invocation: captured text, success flag and
elapsed duration. `runChecks` is parametrized by the outcome of each check's
run, indexed by the check's position. -/
structure RunOut where
  text : String
  ok : Bool
  d : Nat

/-- The loop body of `runChecks`: iterates the remaining checks starting at
index `i`, appending one `gistFile` per check to the results stream and
conjoining the per-check success flags. -/
def runChecksLoop (run : Nat → Check → RunOut) (nb : Nat) :
    Nat → List Check → List GistFile × Bool
  | _, [] => ([], true)
  | i, c :: cs =>
    let r := run i c
    let rest := runChecksLoop run nb (i + 1) cs
    (⟨checkName nb (i + 1), r.text, r.ok, r.d⟩ :: rest.1, r.ok && rest.2)

/-- `(*jobRequest).runChecks` (cmd/gohci-worker/job.go:350): computes the
zero-pad width `nb = len(strconv.Itoa(len(checks)))`, runs every check in
configuration order, emits one result per check on the results stream, and
returns the conjunction of the success flags. The stream is returned as the
list of emitted results, in emission order. -/
def runChecks (run : Nat → Check → RunOut) (checks : List Check) :
    List GistFile × Bool :=
  runChecksLoop run (itoa checks.length).length 0 checks

/- ### roundDuration (cmd/gohci-worker/job.go, lines 45-54)
     and roundTime (job.go, lines 44-55) -/

/-- The loop of `roundDuration`: `for r := time.Second; r > time.Microsecond;
r /= 10 { if t >= r { d := r / 1000; return (t + d/2) / d * d } }; return t`.
Thresholds are nanosecond counts (`time.Second = 1e9`,
`time.Microsecond = 1e3`). -/
def roundDurationLoop (t : Nat) (r : Nat) : Nat :=
  if h : 1000 < r then
    if r ≤ t then
      let d := r / 1000
      (t + d / 2) / d * d
    else roundDurationLoop t (r / 10)
  else t
decreasing_by exact Nat.div_lt_self (by omega) (by norm_num)

/-- `roundDuration` (cmd/gohci-worker/job.go:45): rounds a duration to
approximately 4-5 significant digits. -/
def roundDuration (t : Nat) : Nat := roundDurationLoop t 1000000000

/-- `roundTime` (job.go:44, the earlier in-tree revision of the duration
rounding): below 1ms keep nanosecond precision, below 1s round to the nearest
microsecond, otherwise round to the nearest millisecond. -/
def roundTime (t : Nat) : Nat :=
  if t < 1000000 then t
  else if t < 1000000000 then (t + 500) / 1000 * 1000
  else (t + 500000) / 1000000 * 1000000

/-- The rounding granule actually used by `roundDuration` for a given
duration: `r / 1000` for the largest power-of-ten threshold
`r ∈ {1s, 100ms, 10ms, 1ms, 100µs, 10µs}` with `r ≤ t`, and `1`
(identity) when `t < 10µs`. -/
def roundGranule (t : Nat) : Nat :=
  if 1000000000 ≤ t then 1000000
  else if 100000000 ≤ t then 100000
  else if 10000000 ≤ t then 10000
  else if 1000000 ≤ t then 1000
  else if 100000 ≤ t then 100
  else if 10000 ≤ t then 10
  else 1

/- ### fetchRepo (job.go lines 210-224 and its v0 revision) -/

/-- Result of `fetchRepo`, with one instrumentation field recording whether
`os.RemoveAll(repoPath)` was invoked. -/
structure FetchRepoRes where
  text : String
  ok : Bool
  removeAllCalled : Bool
deriving Repr, DecidableEq

/-- `(*jobRequest).fetchRepo`: attempts `git fetch` on a secondary
repository. On fetch failure it deletes the checkout; a successful deletion
is reported as a recovered, non-fatal failure (`ok = true` with a
`<recovered failure>` marker), a failed deletion as a fatal failure
(`ok = false`). On fetch success it checks out `origin/master` as `master`
and conjoins the two flags.

Parameters stand for the external effects: `fetchOut` is what
`j.run(repoRel, nil, ["git","fetch","--quiet","--prune","--all"])` returns,
`rmErr` is `some e` when `os.RemoveAll(repoPath)` fails with error text `e`,
`checkoutOut` is what the `git checkout` run returns, and `repoPath` is the
absolute checkout directory. -/
def fetchRepo (fetchOut : String × Bool) (rmErr : Option String)
    (checkoutOut : String × Bool) (repoPath : String) : FetchRepoRes :=
  let stdout := fetchOut.1
  if !fetchOut.2 then
    match rmErr with
    | some e => ⟨stdout ++ "<failure>\n" ++ e ++ "\n", false, true⟩
    | none => ⟨stdout ++ "<recovered failure>\nrm -rf " ++ repoPath ++ "\n",
        true, true⟩
  else
    ⟨stdout ++ checkoutOut.1, fetchOut.2 && checkoutOut.2, false⟩

/- ### normalizeUTF8 (cmd/gohci-worker/job.go, lines 29-42) -/

/-- Outcome of Go's `utf8.DecodeRune`: the decoded rune value, the number of
bytes consumed, plus one derived flag recording whether the bytes formed a
well-formed encoding (`false` exactly on the error outcomes, where Go
returns `RuneError` with size 0 or 1). -/
structure DecodeOut where
  r : Nat
  size : Nat
  wellFormed : Bool
deriving Repr, DecidableEq

/-- Lower bound of Go's `acceptRanges` entry for the second byte, selected by
the first byte: `0xA0` after `0xE0`, `0x90` after `0xF0`, else `0x80`. -/
def acceptLo (b0 : Nat) : Nat :=
  if b0 = 0xE0 then 0xA0 else if b0 = 0xF0 then 0x90 else 0x80

/-- Upper bound of Go's `acceptRanges` entry for the second byte:
`0x9F` after `0xED`, `0x8F` after `0xF4`, else `0xBF`. -/
def acceptHi (b0 : Nat) : Nat :=
  if b0 = 0xED then 0x9F else if b0 = 0xF4 then 0x8F else 0xBF

/-- Go's `utf8.DecodeRune`: decodes the first UTF-8 encoding in the byte
sequence. First bytes `0x80`-`0xC1` and `0xF5`-`0xFF` are invalid; 2-, 3- and
4-byte forms constrain the second byte by `acceptLo`/`acceptHi` (which
excludes overlong forms, surrogates and values above `U+10FFFF`) and later
bytes to `0x80`-`0xBF`. Every error outcome yields `(RuneError, 1)` except
empty input, which yields `(RuneError, 0)`; `RuneError = 0xFFFD`. -/
def decodeRune : List Nat → DecodeOut
  | [] => ⟨0xFFFD, 0, false⟩
  | b0 :: bs =>
    if b0 < 0x80 then ⟨b0, 1, true⟩
    else if b0 < 0xC2 then ⟨0xFFFD, 1, false⟩
    else if b0 < 0xE0 then
      match bs with
      | b1 :: _ =>
        if acceptLo b0 ≤ b1 ∧ b1 ≤ acceptHi b0 then
          ⟨(b0 % 0x20) * 0x40 + b1 % 0x40, 2, true⟩
        else ⟨0xFFFD, 1, false⟩
      | [] => ⟨0xFFFD, 1, false⟩
    else if b0 < 0xF0 then
      match bs with
      | b1 :: b2 :: _ =>
        if acceptLo b0 ≤ b1 ∧ b1 ≤ acceptHi b0 ∧ 0x80 ≤ b2 ∧ b2 ≤ 0xBF then
          ⟨(b0 % 0x10) * 0x1000 + (b1 % 0x40) * 0x40 + b2 % 0x40, 3, true⟩
        else ⟨0xFFFD, 1, false⟩
      | _ => ⟨0xFFFD, 1, false⟩
    else if b0 < 0xF5 then
      match bs with
      | b1 :: b2 :: b3 :: _ =>
        if acceptLo b0 ≤ b1 ∧ b1 ≤ acceptHi b0 ∧ 0x80 ≤ b2 ∧ b2 ≤ 0xBF ∧
            0x80 ≤ b3 ∧ b3 ≤ 0xBF then
          ⟨(b0 % 0x08) * 0x40000 + (b1 % 0x40) * 0x1000 + (b2 % 0x40) * 0x40 +
            b3 % 0x40, 4, true⟩
        else ⟨0xFFFD, 1, false⟩
      | _ => ⟨0xFFFD, 1, false⟩
    else ⟨0xFFFD, 1, false⟩

/-- Go's `utf8.Valid`: the byte sequence is a concatenation of well-formed
UTF-8 encodings. -/
def utf8Valid : List Nat → Bool
  | [] => true
  | b0 :: bs =>
    (decodeRune (b0 :: bs)).wellFormed &&
      utf8Valid ((b0 :: bs).drop (decodeRune (b0 :: bs)).size)
termination_by b => b.length
decreasing_by
  have hpos : 0 < (decodeRune (b0 :: bs)).size := by
    rcases bs with _ | ⟨b1, _ | ⟨b2, _ | ⟨b3, bs⟩⟩⟩ <;>
      simp only [decodeRune] <;> split_ifs <;> norm_num
  simp only [List.length_drop, List.length_cons]
  omega

/-- The rebuilding loop of `normalizeUTF8` (the branch taken when the input
is not valid UTF-8): repeatedly decode one rune; keep the consumed bytes
whenever the decoded rune is not `RuneError`, drop them otherwise. -/
def normalizeLoop : List Nat → List Nat
  | [] => []
  | b0 :: bs =>
    (if (decodeRune (b0 :: bs)).r ≠ 0xFFFD then
        (b0 :: bs).take (decodeRune (b0 :: bs)).size
      else []) ++
      normalizeLoop ((b0 :: bs).drop (decodeRune (b0 :: bs)).size)
termination_by b => b.length
decreasing_by
  have hpos : 0 < (decodeRune (b0 :: bs)).size := by
    rcases bs with _ | ⟨b1, _ | ⟨b2, _ | ⟨b3, bs⟩⟩⟩ <;>
      simp only [decodeRune] <;> split_ifs <;> norm_num
  simp only [List.length_drop, List.length_cons]
  omega

/-- `normalizeUTF8` (cmd/gohci-worker/job.go:29): returns the input unchanged
when it is already valid UTF-8, and otherwise rebuilds it rune by rune,
dropping every chunk whose decode produced `utf8.RuneError`. -/
def normalizeUTF8 (b : List Nat) : List Nat :=
  if utf8Valid b then b else normalizeLoop b

/- ### The job pipeline goroutine of runJobRequestInner
     (cmd/gohci-worker/worker.go, lines 174-199) -/

/-- Observable behaviour of the producer goroutine of `runJobRequestInner`:
the step results emitted on the `results` channel in emission order, the
message sent on the `cc` channel (checks plus note), and instrumentation
recording whether the checkout phase ran and how many checks were
executed. -/
structure PipelineOut where
  results : List GistFile
  configSent : Option (List Check × String)
  checkoutRan : Bool
  checksRun : Nat

/-- The producer goroutine of `runJobRequestInner`
(cmd/gohci-worker/worker.go:174): phase 1 emits the `setup-1-sync` result and
returns on failure; phase 2 emits `setup-2-get` and returns on failure;
phase 3 sends the parsed configuration on `cc`; phase 4 runs the checks.
`syncOut`/`checkoutOut` are what `j.sync()` and `j.checkout()` return,
`cfg` is what `j.parseConfig(w.name)` returns, `run` gives each check's run
outcome, and the durations are the elapsed times measured for phases 1
and 2. -/
def pipelineProducer (syncOut checkoutOut : String × Bool)
    (syncDur checkoutDur : Nat) (cfg : List Check × String)
    (run : Nat → Check → RunOut) : PipelineOut :=
  let r1 : GistFile := ⟨"setup-1-sync", syncOut.1, syncOut.2, syncDur⟩
  if !syncOut.2 then ⟨[r1], none, false, 0⟩
  else
    let r2 : GistFile := ⟨"setup-2-get", checkoutOut.1, checkoutOut.2,
      checkoutDur⟩
    if !checkoutOut.2 then ⟨[r1, r2], none, true, 0⟩
    else
      ⟨[r1, r2] ++ (runChecks run cfg.1).1, some cfg, true,
        (runChecks run cfg.1).1.length⟩

/- ### The reporting control loop of runJobRequestInner
     (cmd/gohci-worker/worker.go, lines 201-291) -/

/-- A flush of the note and status to the external transport
(`w.gist(gist)` followed by `w.status(j, status)`), tagged by the site in the
control loop that performed it: the immediate first-failure flush, the
debounce-timer flush, or the final flush after the results channel closed. -/
inductive FlushKind where
  | immediate
  | debounced
  | final
deriving Repr, DecidableEq

/-- The control-flow-relevant state of the reporting loop: the `checkNum`,
`failed` and `total` counters, whether a debounce timer is armed
(`delay != nil`), and the note files accumulated so far (name and content,
in arrival order). -/
structure LoopState where
  checkNum : Nat
  failed : Nat
  total : Nat
  delayArmed : Bool
  files : List (String × String)
deriving Repr, DecidableEq

/-- Initial loop state: counters zero, no timer armed
(`var delay <-chan time.Time`). -/
def initLoopState : LoopState := ⟨0, 0, 0, false, []⟩

/-- One arrival the `select` statement of the reporting loop can observe
while the results channel is open: the debounce timer firing, the parsed
configuration on `cc`, or one step result. Channel closure is modelled as
the end of the event list. -/
inductive LoopEvent where
  | timer
  | config (checks : List Check) (note : String)
  | result (r : GistFile)

/-- The rendered note-file name of a result: a ` FAILED` marker on failure,
then ` in ` and the rounded duration. `fmtDur` stands for Go's
`time.Duration.String()` rendering. -/
def resultName (fmtDur : Nat → String) (r : GistFile) : String :=
  (if r.success then r.name else r.name ++ " FAILED") ++ " in " ++
    fmtDur (roundDuration r.d)

/-- Empty content is replaced by a placeholder. -/
def resultContent (r : GistFile) : String :=
  if r.content = "" then "<missing>" else r.content

/-- One iteration of the reporting loop's `select`
(cmd/gohci-worker/worker.go:211-290), returning the successor state and the
flushes performed during the iteration. A `timer` arrival can only occur
when the timer is armed (a nil channel never delivers); the guard encodes
that. On a result: the failure counter and `checkNum` advance as in the
source, the note file is appended; then, on the first failure ever observed
the loop flushes immediately and disarms the timer, otherwise it arms the
debounce timer if none is armed and performs no flush. -/
def stepEvent (fmtDur : Nat → String) (s : LoopState) :
    LoopEvent → LoopState × List FlushKind
  | .timer =>
    if s.delayArmed then ({ s with delayArmed := false }, [.debounced])
    else (s, [])
  | .config checks _ => ({ s with total := checks.length }, [])
  | .result r =>
    let firstFailure := !r.success && s.failed == 0
    let s1 : LoopState := { s with
      failed := if r.success then s.failed else s.failed + 1
      checkNum := if s.total ≠ 0 ∧ s.checkNum ≠ s.total then s.checkNum + 1
        else s.checkNum
      files := s.files ++ [(resultName fmtDur r, resultContent r)] }
    if firstFailure then ({ s1 with delayArmed := false }, [.immediate])
    else if !s.delayArmed then ({ s1 with delayArmed := true }, [])
    else (s1, [])

/-- Folds `stepEvent` over a sequence of arrivals, collecting all flushes in
order. -/
def foldSteps (fmtDur : Nat → String) (s : LoopState) :
    List LoopEvent → LoopState × List FlushKind
  | [] => (s, [])
  | e :: es =>
    let first := stepEvent fmtDur s e
    let rest := foldSteps fmtDur first.1 es
    (rest.1, first.2 ++ rest.2)

/-- The whole reporting loop of `runJobRequestInner`: processes every arrival
until the results channel closes, then performs one last flush if a debounced
flush was still pending, and returns the overall failure flag
(`failed != 0`). The returned list is every flush performed, in order. -/
def runJobLoop (fmtDur : Nat → String) (s : LoopState)
    (events : List LoopEvent) : List FlushKind × Bool :=
  let ending := foldSteps fmtDur s events
  (ending.2 ++ (if ending.1.delayArmed then [.final] else []),
    ending.1.failed != 0)

/- ### jobRequest.String (cmd/gohci-worker/job.go, lines 156-161) -/

/-- `jobRequest` (cmd/gohci-worker/job.go): the fields consulted by
`String()` and `getID()`. Commit hashes are ASCII, so Go's byte length of
`commitHash` equals the character length used here. -/
structure JobRequest where
  org : String
  repo : String
  altPath : String
  commitHash : String
  useSSH : Bool
  pullID : Nat
deriving Repr, DecidableEq

/-- `(*jobRequest).getID`: the `org/repo` identifier. -/
def JobRequest.getID (j : JobRequest) : String := j.org ++ "/" ++ j.repo

/-- `(*jobRequest).String` (cmd/gohci-worker/job.go:156). The Go code slices
`j.commitHash[:12]` unconditionally; slicing a string shorter than 12 bytes
panics, modelled as `none`. -/
def jobString (j : JobRequest) : Option String :=
  if j.commitHash.length < 12 then none
  else if j.pullID ≠ 0 then
    some ("https://github.com/" ++ j.getID ++ "/pull/" ++
      String.mk (itoa j.pullID) ++ " at https://github.com/" ++ j.getID ++
      "/commit/" ++ (j.commitHash.take 12))
  else
    some ("https://github.com/" ++ j.getID ++ "/commit/" ++
      (j.commitHash.take 12))

/-! ## Helper lemmas -/

theorem decodeRune_size_pos (b0 : Nat) (bs : List Nat) :
    0 < (decodeRune (b0 :: bs)).size := by
  rcases bs with _ | ⟨b1, _ | ⟨b2, _ | ⟨b3, bs⟩⟩⟩ <;>
    simp only [decodeRune] <;> split_ifs <;> norm_num

/-- Closed form of `roundDuration`: the loop compares against the six
thresholds in decreasing order and rounds half-up at the granule it picks. -/
theorem roundDuration_eq (t : Nat) :
    roundDuration t =
      if 1000000000 ≤ t then (t + 500000) / 1000000 * 1000000
      else if 100000000 ≤ t then (t + 50000) / 100000 * 100000
      else if 10000000 ≤ t then (t + 5000) / 10000 * 10000
      else if 1000000 ≤ t then (t + 500) / 1000 * 1000
      else if 100000 ≤ t then (t + 50) / 100 * 100
      else if 10000 ≤ t then (t + 5) / 10 * 10
      else t := by
  have e9 : roundDurationLoop t 1000000000 =
      if 1000000000 ≤ t then (t + 500000) / 1000000 * 1000000
      else roundDurationLoop t 100000000 := by
    rw [roundDurationLoop]; norm_num
  have e8 : roundDurationLoop t 100000000 =
      if 100000000 ≤ t then (t + 50000) / 100000 * 100000
      else roundDurationLoop t 10000000 := by
    rw [roundDurationLoop]; norm_num
  have e7 : roundDurationLoop t 10000000 =
      if 10000000 ≤ t then (t + 5000) / 10000 * 10000
      else roundDurationLoop t 1000000 := by
    rw [roundDurationLoop]; norm_num
  have e6 : roundDurationLoop t 1000000 =
      if 1000000 ≤ t then (t + 500) / 1000 * 1000
      else roundDurationLoop t 100000 := by
    rw [roundDurationLoop]; norm_num
  have e5 : roundDurationLoop t 100000 =
      if 100000 ≤ t then (t + 50) / 100 * 100
      else roundDurationLoop t 10000 := by
    rw [roundDurationLoop]; norm_num
  have e4 : roundDurationLoop t 10000 =
      if 10000 ≤ t then (t + 5) / 10 * 10
      else roundDurationLoop t 1000 := by
    rw [roundDurationLoop]; norm_num
  have e3 : roundDurationLoop t 1000 = t := by
    rw [roundDurationLoop]; norm_num
  rw [roundDuration, e9, e8, e7, e6, e5, e4, e3]

theorem runChecksLoop_length (run : Nat → Check → RunOut) (nb : Nat) :
    ∀ (cs : List Check) (i : Nat),
      (runChecksLoop run nb i cs).1.length = cs.length := by
  intro cs
  induction cs with
  | nil => intro i; rfl
  | cons c cs ih => intro i; simp [runChecksLoop, ih]

theorem runChecksLoop_get (run : Nat → Check → RunOut) (nb : Nat) :
    ∀ (cs : List Check) (i k : Nat) (c : Check), cs[k]? = some c →
      (runChecksLoop run nb i cs).1[k]? =
        some ⟨checkName nb (i + k + 1), (run (i + k) c).text,
          (run (i + k) c).ok, (run (i + k) c).d⟩ := by
  intro cs
  induction cs with
  | nil => intro i k c h; simp at h
  | cons c0 cs ih =>
    intro i k c h
    cases k with
    | zero =>
      simp at h
      subst h
      simp [runChecksLoop]
    | succ k =>
      simp only [List.getElem?_cons_succ] at h
      have := ih (i + 1) k c h
      simp only [runChecksLoop, List.getElem?_cons_succ]
      rw [this]
      ring_nf

theorem runChecksLoop_all (run : Nat → Check → RunOut) (nb : Nat) :
    ∀ (cs : List Check) (i : Nat),
      (runChecksLoop run nb i cs).2 =
        (runChecksLoop run nb i cs).1.all GistFile.success := by
  intro cs
  induction cs with
  | nil => intro i; rfl
  | cons c cs ih => intro i; simp [runChecksLoop, ih]

/-! ## Claim C1 -/

/-- C1: for every configured list of checks and every assignment of run
outcomes, `runChecks` emits exactly one result per check, in configuration
order (the k-th emitted result carries the k-th check's run outcome and the
name derived from position k+1), and the returned overall success flag is
the conjunction of the per-check success flags. No hypothesis restricts the
run outcomes, so this holds in particular when any check fails. -/
theorem runChecks_emits_every_check (run : Nat → Check → RunOut)
    (checks : List Check) :
    (runChecks run checks).1.length = checks.length ∧
    (∀ (k : Nat) (c : Check), checks[k]? = some c →
      (runChecks run checks).1[k]? =
        some (GistFile.mk (checkName (itoa checks.length).length (k + 1))
          (run k c).text (run k c).ok (run k c).d)) ∧
    (runChecks run checks).2 =
      (runChecks run checks).1.all GistFile.success := by
  refine ⟨runChecksLoop_length run _ checks 0, ?_,
    runChecksLoop_all run _ checks 0⟩
  intro k c h
  have := runChecksLoop_get run (itoa checks.length).length checks 0 k c h
  simpa using this

/-- C1 witness: with three checks where the second fails, three results are
emitted and the overall flag is false. -/
theorem runChecks_emits_every_check_witness :
    (runChecks (fun i _ => ⟨"", i == 0 || i == 2, 0⟩)
        [⟨["go", "vet"], [], ""⟩, ⟨["go", "test"], [], ""⟩,
          ⟨["go", "build"], [], ""⟩]).1[1]? =
      some ⟨checkName (itoa 3).length 2, "", false, 0⟩ :=
  (runChecks_emits_every_check (fun i _ => ⟨"", i == 0 || i == 2, 0⟩)
    [⟨["go", "vet"], [], ""⟩, ⟨["go", "test"], [], ""⟩,
      ⟨["go", "build"], [], ""⟩]).2.1 1 ⟨["go", "test"], [], ""⟩ rfl

/-! ## Claim C2 -/

/-- C2: if the sync phase produces a failed result, the pipeline emits
exactly that one step result and terminates: the checkout phase never runs,
the configuration is never sent, and zero checks execute. Likewise, a
checkout-phase failure (with sync succeeded) stops the pipeline after the
two setup results, before any check runs. -/
theorem pipeline_setup_short_circuit (syncOut checkoutOut : String × Bool)
    (syncDur checkoutDur : Nat) (cfg : List Check × String)
    (run : Nat → Check → RunOut) :
    (syncOut.2 = false →
      pipelineProducer syncOut checkoutOut syncDur checkoutDur cfg run =
        ⟨[⟨"setup-1-sync", syncOut.1, false, syncDur⟩], none, false, 0⟩) ∧
    (syncOut.2 = true → checkoutOut.2 = false →
      pipelineProducer syncOut checkoutOut syncDur checkoutDur cfg run =
        ⟨[⟨"setup-1-sync", syncOut.1, true, syncDur⟩,
          ⟨"setup-2-get", checkoutOut.1, false, checkoutDur⟩],
          none, true, 0⟩) := by
  refine ⟨fun h => ?_, fun h h2 => ?_⟩
  · simp [pipelineProducer, h]
  · simp [pipelineProducer, h, h2]

/-- C2 witness: a concrete sync failure emits one result and stops. -/
theorem pipeline_setup_short_circuit_witness :
    pipelineProducer ("git fetch failed", false) ("", true) 7 0 ([], "")
        (fun _ _ => ⟨"", true, 0⟩) =
      ⟨[⟨"setup-1-sync", "git fetch failed", false, 7⟩], none, false, 0⟩ :=
  (pipeline_setup_short_circuit ("git fetch failed", false) ("", true) 7 0
    ([], "") (fun _ _ => ⟨"", true, 0⟩)).1 rfl

theorem foldSteps_append (fmtDur : Nat → String) :
    ∀ (es1 es2 : List LoopEvent) (s : LoopState),
      foldSteps fmtDur s (es1 ++ es2) =
        ((foldSteps fmtDur (foldSteps fmtDur s es1).1 es2).1,
          (foldSteps fmtDur s es1).2 ++
            (foldSteps fmtDur (foldSteps fmtDur s es1).1 es2).2) := by
  intro es1
  induction es1 with
  | nil => intro es2 s; simp [foldSteps]
  | cons e es ih => intro es2 s; simp [foldSteps, ih]

/-- A result event that is not the first failure performs no flush, leaves
the timer armed, and cannot clear the failure counter. -/
theorem stepEvent_result_not_first (fmtDur : Nat → String) (s : LoopState)
    (r : GistFile) (h : r.success = true ∨ s.failed ≠ 0) :
    (stepEvent fmtDur s (.result r)).2 = [] ∧
    ((stepEvent fmtDur s (.result r)).1.delayArmed = true ∨
      (stepEvent fmtDur s (.result r)).1.delayArmed = s.delayArmed) ∧
    s.failed ≤ (stepEvent fmtDur s (.result r)).1.failed := by
  have hff : (!r.success && s.failed == 0) = false := by
    rcases h with h | h
    · simp [h]
    · simp [h]
  by_cases hd : s.delayArmed <;> simp [stepEvent, hff, hd] <;> split_ifs <;>
    simp

/-- While the timer is armed and a failure has already been recorded,
processing any stream of results performs no flush and keeps the timer armed
and the failure counter positive. -/
theorem foldSteps_results_coalesce (fmtDur : Nat → String) :
    ∀ (rs : List GistFile) (s : LoopState), s.delayArmed = true →
      s.failed ≠ 0 →
      (foldSteps fmtDur s (rs.map LoopEvent.result)).2 = [] ∧
      (foldSteps fmtDur s (rs.map LoopEvent.result)).1.delayArmed = true ∧
      (foldSteps fmtDur s (rs.map LoopEvent.result)).1.failed ≠ 0 := by
  intro rs
  induction rs with
  | nil => intro s h1 h2; exact ⟨rfl, h1, h2⟩
  | cons r rs ih =>
    intro s h1 h2
    have hff : (!r.success && s.failed == 0) = false := by simp [h2]
    have hstep : stepEvent fmtDur s (.result r) =
        ({ s with
            failed := if r.success then s.failed else s.failed + 1
            checkNum := if s.total ≠ 0 ∧ s.checkNum ≠ s.total then
              s.checkNum + 1 else s.checkNum
            files := s.files ++ [(resultName fmtDur r, resultContent r)] },
          []) := by
      simp [stepEvent, hff, h1]
    have h2n : (if r.success then s.failed else s.failed + 1) ≠ 0 := by
      split_ifs <;> omega
    have := ih ({ s with
        failed := if r.success then s.failed else s.failed + 1
        checkNum := if s.total ≠ 0 ∧ s.checkNum ≠ s.total then
          s.checkNum + 1 else s.checkNum
        files := s.files ++ [(resultName fmtDur r, resultContent r)] })
      h1 h2n
    simpa [foldSteps, hstep] using this

/-- No iteration of the open-channel loop ever performs the final flush;
that flush belongs to channel closure alone. -/
theorem stepEvent_no_final (fmtDur : Nat → String) (s : LoopState)
    (e : LoopEvent) : (stepEvent fmtDur s e).2.count FlushKind.final = 0 := by
  rcases e with _ | ⟨checks, note⟩ | r <;> simp [stepEvent] <;> split_ifs <;>
    simp [List.count_singleton]

theorem foldSteps_no_final (fmtDur : Nat → String) :
    ∀ (es : List LoopEvent) (s : LoopState),
      (foldSteps fmtDur s es).2.count FlushKind.final = 0 := by
  intro es
  induction es with
  | nil => intro s; rfl
  | cons e es ih =>
    intro s
    simp [foldSteps, List.count_append, ih, stepEvent_no_final]

/-! ## Claim C3 -/

/-- C3: the reporting loop flushes immediately, and disarms any pending
debounce timer, exactly when it processes the first failed result of the
job; a result that is not the first failure never flushes immediately and
leaves the loop with the debounce timer armed (arming it only when none was
pending); and any stream of results processed while the timer is armed after
a failure produces no flush at all, being coalesced into the single
debounced flush performed when the timer fires. -/
theorem reporting_first_failure_immediate (fmtDur : Nat → String) :
    (∀ (s : LoopState) (r : GistFile), r.success = false → s.failed = 0 →
      (stepEvent fmtDur s (.result r)).2 = [FlushKind.immediate] ∧
      (stepEvent fmtDur s (.result r)).1.delayArmed = false) ∧
    (∀ (s : LoopState) (r : GistFile), r.success = true ∨ s.failed ≠ 0 →
      (stepEvent fmtDur s (.result r)).2 = [] ∧
      (stepEvent fmtDur s (.result r)).1.delayArmed = true) ∧
    (∀ (s : LoopState) (rs : List GistFile), s.delayArmed = true →
      s.failed ≠ 0 →
      (foldSteps fmtDur s (rs.map LoopEvent.result)).2 = [] ∧
      (foldSteps fmtDur s
        (rs.map LoopEvent.result ++ [LoopEvent.timer])).2 =
        [FlushKind.debounced]) := by
  refine ⟨?_, ?_, ?_⟩
  · intro s r h1 h2
    simp [stepEvent, h1, h2]
  · intro s r h
    have hff : (!r.success && s.failed == 0) = false := by
      rcases h with h | h
      · simp [h]
      · simp [h]
    by_cases hd : s.delayArmed <;> simp [stepEvent, hff, hd]
  · intro s rs h1 h2
    obtain ⟨hfl, harm, _⟩ := foldSteps_results_coalesce fmtDur rs s h1 h2
    refine ⟨hfl, ?_⟩
    rw [foldSteps_append]
    simp [hfl, foldSteps, stepEvent, harm]

/-- C3 witness: from the initial state, a failed first result flushes
immediately; afterwards, with the timer armed, two more results coalesce
into the single debounced flush at timer expiry. -/
theorem reporting_first_failure_immediate_witness :
    (stepEvent (fun _ => "0s") initLoopState
      (.result ⟨"cmd1", "boom", false, 3⟩)).2 = [FlushKind.immediate] ∧
    (foldSteps (fun _ => "0s") ⟨1, 1, 3, true, []⟩
      ([⟨"cmd2", "", true, 0⟩, ⟨"cmd3", "", false, 0⟩].map
        LoopEvent.result ++ [LoopEvent.timer])).2 =
      [FlushKind.debounced] :=
  ⟨((reporting_first_failure_immediate (fun _ => "0s")).1 initLoopState
      ⟨"cmd1", "boom", false, 3⟩ rfl rfl).1,
    ((reporting_first_failure_immediate (fun _ => "0s")).2.2
      ⟨1, 1, 3, true, []⟩ [⟨"cmd2", "", true, 0⟩, ⟨"cmd3", "", false, 0⟩]
      rfl (by decide)).2⟩

/-! ## Claim C4 -/

/-- C4: whatever arrivals the loop processed while the results channel was
open, closure of the channel triggers exactly one final flush when a
debounced flush is still pending (timer armed) and none otherwise, placed
after every other flush, and the loop then returns the overall failure flag
`failed != 0`. -/
theorem reporting_terminal_flush (fmtDur : Nat → String) (s : LoopState)
    (events : List LoopEvent) :
    ((runJobLoop fmtDur s events).1.count FlushKind.final =
      if (foldSteps fmtDur s events).1.delayArmed then 1 else 0) ∧
    (runJobLoop fmtDur s events).1 =
      (foldSteps fmtDur s events).2 ++
        (if (foldSteps fmtDur s events).1.delayArmed then [FlushKind.final]
          else []) ∧
    (runJobLoop fmtDur s events).2 =
      ((foldSteps fmtDur s events).1.failed != 0) := by
  refine ⟨?_, rfl, rfl⟩
  rw [runJobLoop]
  simp only [List.count_append, foldSteps_no_final]
  split_ifs <;> simp

/-! ## Claim C5 -/

/-- C5: when a secondary repository's fetch fails, `fetchRepo` deletes the
checkout directory; if the deletion succeeds the outcome is a recovered,
non-fatal failure (`ok = true` with the `<recovered failure>` marker in the
text), and only a failing deletion yields a fatal result (`ok = false`). -/
theorem fetchRepo_recovers (fetchOut : String × Bool) (rmErr : Option String)
    (checkoutOut : String × Bool) (repoPath : String)
    (hf : fetchOut.2 = false) :
    (rmErr = none →
      fetchRepo fetchOut rmErr checkoutOut repoPath =
        ⟨fetchOut.1 ++ "<recovered failure>\nrm -rf " ++ repoPath ++ "\n",
          true, true⟩) ∧
    (∀ e, rmErr = some e →
      fetchRepo fetchOut rmErr checkoutOut repoPath =
        ⟨fetchOut.1 ++ "<failure>\n" ++ e ++ "\n", false, true⟩) := by
  refine ⟨fun h => ?_, fun e h => ?_⟩ <;> subst h <;> simp [fetchRepo, hf]

/-- C5 witness: a concrete failed fetch with successful deletion gives a
recovered, non-fatal failure. -/
theorem fetchRepo_recovers_witness :
    fetchRepo ("boom\n", false) none ("", true) "/w/p_r/src/github.com/x/y" =
      ⟨"boom\n" ++ "<recovered failure>\nrm -rf " ++
        "/w/p_r/src/github.com/x/y" ++ "\n", true, true⟩ :=
  (fetchRepo_recovers ("boom\n", false) none ("", true)
    "/w/p_r/src/github.com/x/y" rfl).1 rfl

/-! ## Claim C6 -/

/-- C6 counterexample: the rounding function used to render command
durations is `roundDuration`, and it does not leave sub-millisecond
durations unchanged: at 999999ns (which is below one millisecond) it rounds
to the nearest 100ns, returning 1000000ns. -/
theorem roundDuration_sub_ms_changed :
    roundDuration 999999 = 1000000 ∧ (999999 : Nat) < 1000000 ∧
    roundDuration 999999 ≠ 999999 := by
  have h := roundDuration_eq 999999
  norm_num at h
  exact ⟨h, by norm_num, by rw [h]; norm_num⟩

/-- C6 (amended): `roundDuration` keeps roughly 4-5 significant digits: with
`g = roundGranule t` the granule selected by the largest power-of-ten
threshold not exceeding `t` (1ms granule from 1s up, 100µs from 100ms, 10µs
from 10ms, 1µs from 1ms, 100ns from 100µs, 10ns from 10µs), the result is a
multiple of `g` within `g/2` of `t`, and durations below 10µs are returned
unchanged at nanosecond resolution. -/
theorem roundDuration_granule_spec (t : Nat) :
    roundDuration t % roundGranule t = 0 ∧
    roundDuration t ≤ t + roundGranule t / 2 ∧
    t ≤ roundDuration t + roundGranule t / 2 ∧
    (t < 10000 → roundDuration t = t) := by
  rw [roundDuration_eq, roundGranule]
  split_ifs with h1 h2 h3 h4 h5 h6 <;> refine ⟨?_, ?_, ?_, ?_⟩ <;> omega

/-- C6 (amended) witness: below 10µs the duration is preserved exactly. -/
theorem roundDuration_granule_spec_witness : roundDuration 9999 = 9999 :=
  (roundDuration_granule_spec 9999).2.2.2 (by norm_num)

theorem decodeRune_not_wf_r (b : List Nat)
    (h : (decodeRune b).wellFormed = false) : (decodeRune b).r = 0xFFFD := by
  rcases b with _ | ⟨b0, _ | ⟨b1, _ | ⟨b2, _ | ⟨b3, bs⟩⟩⟩⟩ <;>
    simp only [decodeRune] at h ⊢ <;> split_ifs at h ⊢ <;> simp_all

theorem decodeRune_size_le (b : List Nat)
    (h : (decodeRune b).wellFormed = true) :
    (decodeRune b).size ≤ b.length := by
  rcases b with _ | ⟨b0, _ | ⟨b1, _ | ⟨b2, _ | ⟨b3, bs⟩⟩⟩⟩ <;>
    simp only [decodeRune] at h ⊢ <;>
    first
      | (split_ifs at h ⊢ <;> simp_all)
      | simp_all

/-- Shape analysis of a well-formed decode: the input starts with a 1-, 2-,
3- or 4-byte encoding whose bytes satisfy the corresponding range checks. -/
theorem decodeRune_wf_cases (b : List Nat)
    (h : (decodeRune b).wellFormed = true) :
    (∃ b0 bs, b = b0 :: bs ∧ b0 < 0x80 ∧ decodeRune b = ⟨b0, 1, true⟩) ∨
    (∃ b0 b1 bs, b = b0 :: b1 :: bs ∧ (0xC2 ≤ b0 ∧ b0 < 0xE0) ∧
      (acceptLo b0 ≤ b1 ∧ b1 ≤ acceptHi b0) ∧
      decodeRune b = ⟨(b0 % 0x20) * 0x40 + b1 % 0x40, 2, true⟩) ∨
    (∃ b0 b1 b2 bs, b = b0 :: b1 :: b2 :: bs ∧ (0xE0 ≤ b0 ∧ b0 < 0xF0) ∧
      (acceptLo b0 ≤ b1 ∧ b1 ≤ acceptHi b0 ∧ 0x80 ≤ b2 ∧ b2 ≤ 0xBF) ∧
      decodeRune b =
        ⟨(b0 % 0x10) * 0x1000 + (b1 % 0x40) * 0x40 + b2 % 0x40, 3, true⟩) ∨
    (∃ b0 b1 b2 b3 bs, b = b0 :: b1 :: b2 :: b3 :: bs ∧
      (0xF0 ≤ b0 ∧ b0 < 0xF5) ∧
      (acceptLo b0 ≤ b1 ∧ b1 ≤ acceptHi b0 ∧ 0x80 ≤ b2 ∧ b2 ≤ 0xBF ∧
        0x80 ≤ b3 ∧ b3 ≤ 0xBF) ∧
      decodeRune b = ⟨(b0 % 0x08) * 0x40000 + (b1 % 0x40) * 0x1000 +
        (b2 % 0x40) * 0x40 + b3 % 0x40, 4, true⟩) := by
  rcases b with _ | ⟨b0, bs⟩
  · simp [decodeRune] at h
  by_cases h1 : b0 < 0x80
  · exact Or.inl ⟨b0, bs, rfl, h1, by simp [decodeRune, h1]⟩
  by_cases h2 : b0 < 0xC2
  · simp [decodeRune, h1, h2] at h
  by_cases h3 : b0 < 0xE0
  · rcases bs with _ | ⟨b1, bs⟩
    · simp [decodeRune, h1, h2, h3] at h
    by_cases h4 : acceptLo b0 ≤ b1 ∧ b1 ≤ acceptHi b0
    · exact Or.inr (Or.inl ⟨b0, b1, bs, rfl, ⟨by omega, h3⟩, h4,
        by simp [decodeRune, h1, h2, h3, h4]⟩)
    · simp [decodeRune, h1, h2, h3, h4] at h
  by_cases h5 : b0 < 0xF0
  · rcases bs with _ | ⟨b1, _ | ⟨b2, bs⟩⟩
    · simp [decodeRune, h1, h2, h3, h5] at h
    · simp [decodeRune, h1, h2, h3, h5] at h
    by_cases h6 : acceptLo b0 ≤ b1 ∧ b1 ≤ acceptHi b0 ∧ 0x80 ≤ b2 ∧
        b2 ≤ 0xBF
    · exact Or.inr (Or.inr (Or.inl ⟨b0, b1, b2, bs, rfl, ⟨by omega, h5⟩, h6,
        by simp [decodeRune, h1, h2, h3, h5, h6]⟩))
    · simp [decodeRune, h1, h2, h3, h5, h6] at h
  by_cases h7 : b0 < 0xF5
  · rcases bs with _ | ⟨b1, _ | ⟨b2, _ | ⟨b3, bs⟩⟩⟩
    · simp [decodeRune, h1, h2, h3, h5, h7] at h
    · simp [decodeRune, h1, h2, h3, h5, h7] at h
    · simp [decodeRune, h1, h2, h3, h5, h7] at h
    by_cases h8 : acceptLo b0 ≤ b1 ∧ b1 ≤ acceptHi b0 ∧ 0x80 ≤ b2 ∧
        b2 ≤ 0xBF ∧ 0x80 ≤ b3 ∧ b3 ≤ 0xBF
    · exact Or.inr (Or.inr (Or.inr ⟨b0, b1, b2, b3, bs, rfl, ⟨by omega, h7⟩,
        h8, by simp [decodeRune, h1, h2, h3, h5, h7, h8]⟩))
    · simp [decodeRune, h1, h2, h3, h5, h7, h8] at h
  · simp [decodeRune, h1, h2, h3, h5, h7] at h

/-- A well-formed decode is determined by the bytes it consumed: decoding
the consumed prefix followed by anything else gives the same outcome. -/
theorem decodeRune_prefix (b rest : List Nat)
    (h : (decodeRune b).wellFormed = true) :
    decodeRune (b.take (decodeRune b).size ++ rest) =
      ⟨(decodeRune b).r, (decodeRune b).size, true⟩ := by
  rcases decodeRune_wf_cases b h with
      ⟨b0, bs, rfl, hc, heq⟩ |
      ⟨b0, b1, bs, rfl, hrange, hcond, heq⟩ |
      ⟨b0, b1, b2, bs, rfl, hrange, hcond, heq⟩ |
      ⟨b0, b1, b2, b3, bs, rfl, hrange, hcond, heq⟩
  · rw [heq]
    simp [decodeRune, hc]
  · obtain ⟨hr1, hr2⟩ := hrange
    have n1 : ¬ b0 < 0x80 := by omega
    have n2 : ¬ b0 < 0xC2 := by omega
    rw [heq]
    simp [decodeRune, n1, n2, hr2, hcond]
  · obtain ⟨hr1, hr2⟩ := hrange
    have n1 : ¬ b0 < 0x80 := by omega
    have n2 : ¬ b0 < 0xC2 := by omega
    have n3 : ¬ b0 < 0xE0 := by omega
    rw [heq]
    simp [decodeRune, n1, n2, n3, hr2, hcond]
  · obtain ⟨hr1, hr2⟩ := hrange
    have n1 : ¬ b0 < 0x80 := by omega
    have n2 : ¬ b0 < 0xC2 := by omega
    have n3 : ¬ b0 < 0xE0 := by omega
    have n5 : ¬ b0 < 0xF0 := by omega
    rw [heq]
    simp [decodeRune, n1, n2, n3, n5, hr2, hcond]

theorem utf8Valid_nil : utf8Valid [] = true := by rw [utf8Valid]

theorem utf8Valid_ne_nil (l : List Nat) (h : l ≠ []) :
    utf8Valid l =
      ((decodeRune l).wellFormed &&
        utf8Valid (l.drop (decodeRune l).size)) := by
  rcases l with _ | ⟨x, xs⟩
  · exact absurd rfl h
  · rw [utf8Valid]

theorem normalizeLoop_nil : normalizeLoop [] = [] := by rw [normalizeLoop]

theorem normalizeLoop_cons (b0 : Nat) (bs : List Nat) :
    normalizeLoop (b0 :: bs) =
      (if (decodeRune (b0 :: bs)).r ≠ 0xFFFD then
          (b0 :: bs).take (decodeRune (b0 :: bs)).size
        else []) ++
        normalizeLoop ((b0 :: bs).drop (decodeRune (b0 :: bs)).size) := by
  rw [normalizeLoop]

/-- Prepending one well-formed encoding preserves validity of the rest. -/
theorem utf8Valid_wf_append (b rest : List Nat)
    (h : (decodeRune b).wellFormed = true) :
    utf8Valid (b.take (decodeRune b).size ++ rest) = utf8Valid rest := by
  rcases b with _ | ⟨b0, bs⟩
  · simp [decodeRune] at h
  · have hsz : 0 < (decodeRune (b0 :: bs)).size := decodeRune_size_pos b0 bs
    have hle := decodeRune_size_le (b0 :: bs) h
    have hpre := decodeRune_prefix (b0 :: bs) rest h
    have hlen : ((b0 :: bs).take (decodeRune (b0 :: bs)).size).length =
        (decodeRune (b0 :: bs)).size := by
      rw [List.length_take]
      exact Nat.min_eq_left hle
    have hne : (b0 :: bs).take (decodeRune (b0 :: bs)).size ++ rest ≠ [] := by
      intro hc
      have := congrArg List.length hc
      simp [hlen] at this
      omega
    rw [utf8Valid_ne_nil _ hne, hpre]
    simp only [Bool.true_and]
    congr 1
    calc ((b0 :: bs).take (decodeRune (b0 :: bs)).size ++ rest).drop
          (decodeRune (b0 :: bs)).size
        = ((b0 :: bs).take (decodeRune (b0 :: bs)).size ++ rest).drop
            ((b0 :: bs).take (decodeRune (b0 :: bs)).size).length := by
          rw [hlen]
      _ = rest := List.drop_left _ _

/-- The rebuilt output of the normalization loop is always valid UTF-8. -/
theorem utf8Valid_normalizeLoop (b : List Nat) :
    utf8Valid (normalizeLoop b) = true := by
  have main : ∀ (N : Nat) (l : List Nat), l.length ≤ N →
      utf8Valid (normalizeLoop l) = true := by
    intro N
    induction N with
    | zero =>
      intro l hl
      have : l = [] := List.eq_nil_of_length_eq_zero (by omega)
      subst this
      rw [normalizeLoop_nil, utf8Valid_nil]
    | succ N ih =>
      intro l hl
      rcases l with _ | ⟨b0, bs⟩
      · rw [normalizeLoop_nil, utf8Valid_nil]
      · rw [normalizeLoop_cons]
        have hdrop : ((b0 :: bs).drop (decodeRune (b0 :: bs)).size).length
            ≤ N := by
          have := decodeRune_size_pos b0 bs
          simp only [List.length_drop, List.length_cons]
          simp only [List.length_cons] at hl
          omega
        by_cases hr : (decodeRune (b0 :: bs)).r = 0xFFFD
        · simpa [hr] using ih _ hdrop
        · have hwf : (decodeRune (b0 :: bs)).wellFormed = true := by
            by_contra hc
            exact hr (decodeRune_not_wf_r _ (Bool.not_eq_true _ ▸ hc))
          rw [if_pos hr, utf8Valid_wf_append _ _ hwf]
          exact ih _ hdrop
  exact main b.length b le_rfl

/-! ## Claim C10 -/

/-- C10: `normalizeUTF8` is idempotent: its output is always valid UTF-8,
and any valid input is returned unchanged, so a second application is the
identity. -/
theorem normalizeUTF8_idempotent (b : List Nat) :
    normalizeUTF8 (normalizeUTF8 b) = normalizeUTF8 b := by
  by_cases h : utf8Valid b
  · simp [normalizeUTF8, h]
  · simp [normalizeUTF8, h, utf8Valid_normalizeLoop b]

/-! ## Claim C7 -/

/-- C7 counterexample: on the input `FF EF BF BD` the only undecodable byte
sequence is the single byte `FF`; removing exactly it would leave
`EF BF BD`, a decodable (well-formed) encoding of U+FFFD. The code instead
returns the empty sequence: the loop drops every chunk whose decoded rune
equals `utf8.RuneError`, which also discards well-formed encodings of
U+FFFD, so the output is not the input with exactly the undecodable
sequences removed. -/
theorem normalizeUTF8_not_exact_removal :
    normalizeUTF8 [255, 239, 191, 189] = [] ∧
    utf8Valid [239, 191, 189] = true ∧
    normalizeUTF8 [255, 239, 191, 189] ≠ [239, 191, 189] := by
  have h1 : normalizeUTF8 [255, 239, 191, 189] = [] := by
    simp [normalizeUTF8, utf8Valid, normalizeLoop, decodeRune, acceptLo,
      acceptHi]
  have h2 : utf8Valid [239, 191, 189] = true := by
    simp [utf8Valid, decodeRune, acceptLo, acceptHi]
  exact ⟨h1, h2, by simp [h1]⟩

/-- C7 (amended): `normalizeUTF8` returns the input unchanged when it is
already valid UTF-8; otherwise it removes every chunk that decodes to
`utf8.RuneError` — all undecodable byte sequences, but also any well-formed
encoding of U+FFFD itself. The result is always valid UTF-8, and invalid
bytes never make the function fail (it is total). -/
theorem normalizeUTF8_sanitizes (b : List Nat) :
    utf8Valid (normalizeUTF8 b) = true ∧
    (utf8Valid b = true → normalizeUTF8 b = b) := by
  constructor
  · by_cases h : utf8Valid b
    · simp [normalizeUTF8, h]
    · simpa [normalizeUTF8, h] using utf8Valid_normalizeLoop b
  · intro h
    simp [normalizeUTF8, h]

/-- C7 (amended) witness: plain ASCII is valid and passes through
unchanged. -/
theorem normalizeUTF8_sanitizes_witness :
    normalizeUTF8 [104, 105] = [104, 105] :=
  (normalizeUTF8_sanitizes [104, 105]).2
    (by simp [utf8Valid, decodeRune])

theorem itoaCore_succ (m : Nat) :
    itoaCore (m + 1) = itoaCore ((m + 1) / 10) ++ [digitChar ((m + 1) % 10)] := by
  rw [itoaCore]

theorem itoaCore_len_le : ∀ (w n : Nat), n < 10 ^ w → (itoaCore n).length ≤ w := by
  intro w
  induction w with
  | zero =>
    intro n h
    have : n = 0 := by simpa using h
    subst this
    simp [itoaCore]
  | succ w ih =>
    intro n h
    cases n with
    | zero => simp [itoaCore]
    | succ m =>
      rw [itoaCore_succ]
      have hpow : (10:Nat) ^ (w + 1) = 10 ^ w * 10 := pow_succ 10 w
      have hd : (m + 1) / 10 < 10 ^ w := by omega
      have := ih _ hd
      simp only [List.length_append, List.length_cons, List.length_nil]
      omega

theorem digitsBE_zero : ∀ w, digitsBE w 0 = List.replicate w 0 := by
  intro w
  induction w with
  | zero => rfl
  | succ w ih => simp [digitsBE, ih, List.replicate_succ]

theorem digitsBE_split : ∀ (w n : Nat), n < 10 ^ (w + 1) →
    digitsBE (w + 1) n = digitsBE w (n / 10) ++ [n % 10] := by
  intro w
  induction w with
  | zero =>
    intro n h
    have h10 : n % 10 = n := Nat.mod_eq_of_lt (by simpa using h)
    simp [digitsBE, h10]
  | succ w ih =>
    intro n h
    have hpow1 : (10:Nat) ^ (w + 1) = 10 * 10 ^ w := by ring
    have h1 : n / 10 ^ (w + 1) = (n / 10) / 10 ^ w := by
      rw [Nat.div_div_eq_div_mul, ← hpow1]
    have h2 : (n % 10 ^ (w + 1)) / 10 = (n / 10) % 10 ^ w := by
      rw [hpow1, Nat.mod_mul_right_div_self]
    have h3 : (n % 10 ^ (w + 1)) % 10 = n % 10 :=
      Nat.mod_mod_of_dvd n ⟨10 ^ w, hpow1⟩
    have hlt : n % 10 ^ (w + 1) < 10 ^ (w + 1) :=
      Nat.mod_lt _ (by positivity)
    calc digitsBE (w + 1 + 1) n
        = n / 10 ^ (w + 1) :: digitsBE (w + 1) (n % 10 ^ (w + 1)) := rfl
      _ = n / 10 ^ (w + 1) ::
          (digitsBE w ((n % 10 ^ (w + 1)) / 10) ++ [(n % 10 ^ (w + 1)) % 10]) := by
          rw [ih _ hlt]
      _ = (n / 10) / 10 ^ w :: (digitsBE w ((n / 10) % 10 ^ w) ++ [n % 10]) := by
          rw [h1, h2, h3]
      _ = digitsBE (w + 1) (n / 10) ++ [n % 10] := rfl

theorem digitsBE_pad : ∀ (w n : Nat), n < 10 ^ w →
    (digitsBE w n).map digitChar =
      List.replicate (w - (itoaCore n).length) '0' ++ itoaCore n := by
  intro w
  induction w with
  | zero =>
    intro n h
    have : n = 0 := by simpa using h
    subst this
    simp [digitsBE, itoaCore]
  | succ w ih =>
    intro n h
    cases n with
    | zero =>
      rw [digitsBE_zero]
      have h0 : digitChar 0 = '0' := by decide
      simp [itoaCore, h0]
    | succ m =>
      rw [digitsBE_split w (m + 1) h, List.map_append, itoaCore_succ]
      have hpow : (10:Nat) ^ (w + 1) = 10 ^ w * 10 := pow_succ 10 w
      have hd : (m + 1) / 10 < 10 ^ w := by omega
      rw [ih _ hd]
      have hlen : (itoaCore ((m + 1) / 10)).length ≤ w := itoaCore_len_le w _ hd
      have hsub : w + 1 - ((itoaCore ((m + 1) / 10)).length + 1) =
          w - (itoaCore ((m + 1) / 10)).length := by omega
      simp only [List.length_append, List.length_cons, List.length_nil,
        Nat.zero_add, hsub, List.append_assoc, List.map_cons, List.map_nil]

theorem digitsBE_lt : ∀ (w m n : Nat), m < n → n < 10 ^ w →
    List.Lex (· < ·) (digitsBE w m) (digitsBE w n) := by
  intro w
  induction w with
  | zero =>
    intro m n hmn h
    simp only [pow_zero] at h
    omega
  | succ w ih =>
    intro m n hmn h
    have hppos : 0 < (10:Nat) ^ w := pow_pos (by norm_num) w
    rcases Nat.lt_trichotomy (m / 10 ^ w) (n / 10 ^ w) with hq | hq | hq
    · exact List.Lex.rel hq
    · simp only [digitsBE]
      rw [hq]
      apply List.Lex.cons
      apply ih
      · have hm := Nat.div_add_mod m (10 ^ w)
        have hn := Nat.div_add_mod n (10 ^ w)
        rw [hq] at hm
        omega
      · exact Nat.mod_lt _ hppos
    · have := Nat.div_le_div_right (c := 10 ^ w) (le_of_lt hmn)
      omega

theorem digitsBE_digits_lt_ten : ∀ (w n : Nat), n < 10 ^ w →
    ∀ d ∈ digitsBE w n, d < 10 := by
  intro w
  induction w with
  | zero => intro n h d hd; simp [digitsBE] at hd
  | succ w ih =>
    intro n h d hd
    simp only [digitsBE, List.mem_cons] at hd
    have hpow : (10:Nat) ^ (w + 1) = 10 ^ w * 10 := pow_succ 10 w
    have hppos : 0 < (10:Nat) ^ w := pow_pos (by norm_num) w
    rcases hd with rfl | hd
    · rw [Nat.div_lt_iff_lt_mul hppos]
      omega
    · exact ih (n % 10 ^ w) (Nat.mod_lt _ hppos) d hd

theorem lex_map_digitChar (l1 l2 : List Nat)
    (h : List.Lex (· < ·) l1 l2) :
    (∀ d ∈ l1, d < 10) → (∀ d ∈ l2, d < 10) →
    List.Lex (· < ·) (l1.map digitChar) (l2.map digitChar) := by
  have hmono : ∀ a, a < 10 → ∀ b, b < 10 → a < b →
      digitChar a < digitChar b := by decide
  induction h with
  | nil => intro _ _; exact List.Lex.nil
  | @rel a as b bs hab =>
    intro h1 h2
    exact List.Lex.rel
      (hmono a (h1 a (by simp)) b (h2 b (by simp)) hab)
  | @cons a as bs hlex ih =>
    intro h1 h2
    exact List.Lex.cons
      (ih (fun d hd => h1 d (List.mem_cons_of_mem a hd))
        (fun d hd => h2 d (List.mem_cons_of_mem a hd)))

theorem lt_pow_itoaCore_len : ∀ n : Nat, n < 10 ^ (itoaCore n).length := by
  intro n
  induction n using Nat.strong_induction_on with
  | _ n ih =>
    cases n with
    | zero => simp [itoaCore]
    | succ m =>
      rw [itoaCore_succ]
      have hdiv : (m + 1) / 10 < m + 1 :=
        Nat.div_lt_self (Nat.succ_pos m) (by norm_num)
      have hlt := ih _ hdiv
      simp only [List.length_append, List.length_cons, List.length_nil,
        Nat.zero_add]
      have hpow : (10:Nat) ^ ((itoaCore ((m + 1) / 10)).length + 1) =
          10 ^ (itoaCore ((m + 1) / 10)).length * 10 := pow_succ 10 _
      omega

theorem lt_pow_itoa_len (n : Nat) : n < 10 ^ (itoa n).length := by
  by_cases h : n = 0
  · subst h; simp [itoa]
  · rw [itoa, if_neg h]
    exact lt_pow_itoaCore_len n

/-- The check names are ordered: with `nb` the width of the check count,
smaller (1-based) positions give lexicographically smaller names. -/
theorem checkName_lt (N i1 j1 : Nat) (hi : 1 ≤ i1) (hij : i1 < j1)
    (hj : j1 ≤ N) :
    checkName (itoa N).length i1 < checkName (itoa N).length j1 := by
  have hN : N < 10 ^ (itoa N).length := lt_pow_itoa_len N
  have hj10 : j1 < 10 ^ (itoa N).length := lt_of_le_of_lt hj hN
  have hi10 : i1 < 10 ^ (itoa N).length := lt_trans hij hj10
  have hpad : ∀ m : Nat, 1 ≤ m → m < 10 ^ (itoa N).length →
      sprintfPad (itoa N).length (itoa m) =
        (digitsBE (itoa N).length m).map digitChar := by
    intro m hm hmlt
    have him : itoa m = itoaCore m := by rw [itoa, if_neg (by omega)]
    rw [sprintfPad, him, digitsBE_pad _ m hmlt]
  have hlex := digitsBE_lt (itoa N).length i1 j1 hij hj10
  have hmap := lex_map_digitChar _ _ hlex
    (digitsBE_digits_lt_ten _ i1 hi10) (digitsBE_digits_lt_ten _ j1 hj10)
  rw [String.lt_iff_toList_lt]
  have ht : ∀ l : List Char, ("cmd" ++ String.mk l).toList =
      'c' :: 'm' :: 'd' :: l := fun l => rfl
  rw [checkName, checkName, ht, ht, hpad i1 hi hi10, hpad j1 (by omega) hj10]
  exact List.Lex.cons (List.Lex.cons (List.Lex.cons hmap))

/-! ## Claim C8 -/

/-- C8: the i-th check result (0-based index i) is named `cmd` followed by
i+1 zero-padded to the width of `strconv.Itoa(len(checks))`, and for any two
positions i < j the i-th result's name lexicographically precedes the j-th
result's name. -/
theorem runChecks_names_ordered (run : Nat → Check → RunOut)
    (checks : List Check) :
    (∀ (k : Nat) (c : Check), checks[k]? = some c →
      ∃ r : GistFile, (runChecks run checks).1[k]? = some r ∧
        r.name = "cmd" ++
          String.mk (sprintfPad (itoa checks.length).length (itoa (k + 1)))) ∧
    (∀ (i j : Nat) (ri rj : GistFile), i < j →
      (runChecks run checks).1[i]? = some ri →
      (runChecks run checks).1[j]? = some rj →
      ri.name < rj.name) := by
  constructor
  · intro k c h
    have hg := runChecksLoop_get run (itoa checks.length).length checks 0 k c h
    simp only [Nat.zero_add] at hg
    exact ⟨_, hg, rfl⟩
  · intro i j ri rj hij hi hj
    have hlen : (runChecks run checks).1.length = checks.length :=
      runChecksLoop_length run _ checks 0
    have hjlt : j < checks.length := by
      by_contra hc
      have hnone : (runChecks run checks).1[j]? = none := by
        apply List.getElem?_eq_none
        omega
      rw [hnone] at hj
      exact Option.noConfusion hj
    obtain ⟨ci, hci⟩ : ∃ c, checks[i]? = some c :=
      ⟨_, List.getElem?_eq_getElem (by omega)⟩
    obtain ⟨cj, hcj⟩ : ∃ c, checks[j]? = some c :=
      ⟨_, List.getElem?_eq_getElem (by omega)⟩
    have hgi := runChecksLoop_get run (itoa checks.length).length checks 0 i ci hci
    have hgj := runChecksLoop_get run (itoa checks.length).length checks 0 j cj hcj
    simp only [Nat.zero_add] at hgi hgj
    have hri : ri.name = checkName (itoa checks.length).length (i + 1) := by
      have heq : some ri = some (GistFile.mk
          (checkName (itoa checks.length).length (i + 1)) (run i ci).text
          (run i ci).ok (run i ci).d) := hi.symm.trans hgi
      rw [Option.some.injEq] at heq
      rw [heq]
    have hrj : rj.name = checkName (itoa checks.length).length (j + 1) := by
      have heq : some rj = some (GistFile.mk
          (checkName (itoa checks.length).length (j + 1)) (run j cj).text
          (run j cj).ok (run j cj).d) := hj.symm.trans hgj
      rw [Option.some.injEq] at heq
      rw [heq]
    rw [hri, hrj]
    exact checkName_lt checks.length (i + 1) (j + 1) (by omega) (by omega)
      (by omega)

/-- C8 witness: with 11 configured checks, the first result's name (position
1, zero-padded to two digits) precedes the second result's name. -/
theorem runChecks_names_ordered_witness :
    checkName (itoa 11).length 1 < checkName (itoa 11).length 2 :=
  (runChecks_names_ordered (fun _ _ => ⟨"", true, 0⟩)
      (List.replicate 11 ⟨["go", "test"], [], ""⟩)).2 0 1
    ⟨checkName (itoa 11).length 1, "", true, 0⟩
    ⟨checkName (itoa 11).length 2, "", true, 0⟩ (by norm_num) rfl rfl

/-! ## Claim C9 -/

/-- C9: `jobRequest.String` slices the first 12 characters of the commit
hash unconditionally, so it is panic-free exactly when the job's commit hash
has at least 12 characters; on any shorter hash (such as the empty string)
the slice panics, modelled by `none`. -/
theorem jobString_requires_long_hash (j : JobRequest) :
    (12 ≤ j.commitHash.length → (jobString j).isSome = true) ∧
    (j.commitHash.length < 12 → jobString j = none) := by
  refine ⟨fun h => ?_, fun h => ?_⟩
  · rw [jobString, if_neg (by omega)]
    split_ifs <;> simp
  · rw [jobString, if_pos h]

/-- C9 witness: a resolved 40-character hash formats successfully; an empty
hash panics. -/
theorem jobString_requires_long_hash_witness :
    (jobString ⟨"periph", "gohci", "",
      "0123456789abcdef0123456789abcdef01234567", false, 0⟩).isSome = true ∧
    jobString ⟨"periph", "gohci", "", "", false, 0⟩ = none := by
  constructor
  · exact (jobString_requires_long_hash _).1 (by decide)
  · exact (jobString_requires_long_hash _).2 (by decide)

end Gohci
